import Mathlib

/-
Verification of `pkg/koordlet/util/resourceexecutor/updater.go` (koordinator).

The Go source is shallowly embedded:
  * the external filesystem / kernel interface is a `Sys` state (an
    association list from resolved paths to file contents, plus the set of
    paths whose writes fail), threaded explicitly;
  * every primitive call made by the drivers is also recorded in an effect
    trace (`Effect`), so that "no write happened", "exactly one write
    happened" and "an audit entry was emitted" are directly statable;
  * Go `error` values are `Option String` (`none` = nil error);
  * machine integers (`strconv.ParseInt(s, 10, 64)`) are modelled over `Int`
    with the explicit signed 64-bit range bounds.
-/

set_option autoImplicit false

/-- Effect trace entries: reads, writes and audit records performed against
the external collaborators while a driver runs. -/
inductive Effect where
  | eread : String → Effect
  | ewrite : String → String → Effect
  | eaudit : String → String → Effect
deriving DecidableEq, Repr

/-- External world: on-disk contents per resolved path, and the set of paths
whose (unconditional) writes fail. -/
structure Sys where
  fs : List (String × String)
  failWrites : List String
deriving Repr

/-- First-match association-list lookup (models Go map lookup / file read). -/
def alookup {α : Type} : List (String × α) → String → Option α
  | [], _ => none
  | (k, v) :: rest, p => if k = p then some v else alookup rest p

/-- Overwrite-or-append update of an association list (models a file write). -/
def setFs : List (String × String) → String → String → List (String × String)
  | [], p, v => [(p, v)]
  | (k, w) :: rest, p, v => if k = p then (p, v) :: rest else (k, w) :: setFs rest p v

theorem alookup_setFs_same (fs : List (String × String)) (p v : String) :
    alookup (setFs fs p v) p = some v := by
  induction fs with
  | nil => simp [setFs, alookup]
  | cons hd tl ih =>
    obtain ⟨k, w⟩ := hd
    by_cases hk : k = p
    · simp [setFs, hk, alookup]
    · simp [setFs, hk, alookup, ih]

/-! ### Decimal digits

`strconv.ParseInt(s, 10, 64)` and the cpuset string format both need a
faithful executable model of Go decimal rendering and parsing. -/

/-- Decimal digit character for a single digit (values above nine are capped,
only ever applied to `n % 10`). -/
def natDigitChar : Nat → Char
  | 0 => '0' | 1 => '1' | 2 => '2' | 3 => '3' | 4 => '4'
  | 5 => '5' | 6 => '6' | 7 => '7' | 8 => '8' | _ => '9'

def isDigitChar (c : Char) : Bool := 48 ≤ c.toNat && c.toNat ≤ 57

def digitToNat (c : Char) : Nat := c.toNat - 48

/-- Fuel-indexed digit rendering; with fuel above `n` this renders the decimal
digits of `n` most-significant first (empty for zero). -/
def natCharsCore : Nat → Nat → List Char
  | 0, _ => []
  | fuel + 1, n =>
    if n = 0 then [] else natCharsCore fuel (n / 10) ++ [natDigitChar (n % 10)]

/-- Decimal rendering of a natural number. -/
def natChars (n : Nat) : List Char :=
  if n = 0 then [natDigitChar 0] else natCharsCore (n + 1) n

/-- Digit-by-digit accumulator loop of the decimal parser. -/
def parseLoop (acc : Nat) : List Char → Option Nat
  | [] => some acc
  | c :: cs => if isDigitChar c then parseLoop (acc * 10 + digitToNat c) cs else none

/-- Parse a non-empty all-digit character list as a natural number. -/
def parseNatChars : List Char → Option Nat
  | [] => none
  | c :: cs => parseLoop 0 (c :: cs)

theorem digitToNat_natDigitChar {d : Nat} (hd : d < 10) :
    digitToNat (natDigitChar d) = d := by
  interval_cases d <;> decide

theorem isDigitChar_natDigitChar (d : Nat) : isDigitChar (natDigitChar d) = true := by
  match d with
  | 0 | 1 | 2 | 3 | 4 | 5 | 6 | 7 | 8 => decide
  | n + 9 => simp [natDigitChar]; decide

theorem natDigitChar_ne_comma (d : Nat) : natDigitChar d ≠ ',' := by
  match d with
  | 0 | 1 | 2 | 3 | 4 | 5 | 6 | 7 | 8 => decide
  | n + 9 => simp [natDigitChar]

theorem natDigitChar_ne_dash (d : Nat) : natDigitChar d ≠ '-' := by
  match d with
  | 0 | 1 | 2 | 3 | 4 | 5 | 6 | 7 | 8 => decide
  | n + 9 => simp [natDigitChar]

theorem parseLoop_append (acc : Nat) (xs ys : List Char) :
    parseLoop acc (xs ++ ys) =
      match parseLoop acc xs with
      | some a => parseLoop a ys
      | none => none := by
  induction xs generalizing acc with
  | nil => simp [parseLoop]
  | cons c cs ih =>
    by_cases hc : isDigitChar c = true
    · simp [parseLoop, hc, ih]
    · simp [parseLoop, hc]

/-- Reading back the fuel-indexed rendering: some positive multiplier `M`
(ten to the number of digits) satisfies `parseLoop acc = acc * M + n`. -/
theorem parseLoop_natCharsCore :
    ∀ fuel n, n < fuel →
      ∃ M, 0 < M ∧ ∀ acc, parseLoop acc (natCharsCore fuel n) = some (acc * M + n) := by
  intro fuel
  induction fuel with
  | zero => intro n hn; omega
  | succ fuel ih =>
    intro n hn
    by_cases hz : n = 0
    · refine ⟨1, Nat.one_pos, ?_⟩
      intro acc
      simp [natCharsCore, hz, parseLoop]
    · have hdiv : n / 10 < fuel := by
        have h1 : n / 10 < n := Nat.div_lt_self (Nat.pos_of_ne_zero hz) (by omega)
        omega
      obtain ⟨M, hM, hIH⟩ := ih (n / 10) hdiv
      refine ⟨M * 10, by positivity, ?_⟩
      intro acc
      have hmod : n % 10 < 10 := Nat.mod_lt _ (by omega)
      simp only [natCharsCore, hz, if_neg, ite_false]
      rw [parseLoop_append, hIH acc]
      simp [parseLoop, isDigitChar_natDigitChar, digitToNat_natDigitChar hmod]
      have : (acc * M + n / 10) * 10 + n % 10 = acc * (M * 10) + n := by
        have := Nat.div_add_mod n 10
        ring_nf
        omega
      omega

theorem natCharsCore_ne_nil {fuel n : Nat} (hn : 0 < n) (hf : n < fuel) :
    natCharsCore fuel n ≠ [] := by
  cases fuel with
  | zero => omega
  | succ fuel =>
    simp [natCharsCore, Nat.pos_iff_ne_zero.mp hn]

/-- Decimal render / parse round trip. -/
theorem parseNatChars_natChars (n : Nat) : parseNatChars (natChars n) = some n := by
  by_cases hz : n = 0
  · subst hz; decide
  · have hn : 0 < n := Nat.pos_of_ne_zero hz
    have hf : n < n + 1 := Nat.lt_succ_self n
    obtain ⟨M, hM, hP⟩ := parseLoop_natCharsCore (n + 1) n hf
    have hne := natCharsCore_ne_nil hn hf
    unfold natChars
    rw [if_neg hz]
    cases hcs : natCharsCore (n + 1) n with
    | nil => exact absurd hcs hne
    | cons c cs =>
      have := hP 0
      rw [hcs] at this
      simpa [parseNatChars] using this

/-- Every character of the rendering is a decimal digit character. -/
theorem mem_natCharsCore_digit :
    ∀ fuel n c, c ∈ natCharsCore fuel n → ∃ d, c = natDigitChar d := by
  intro fuel
  induction fuel with
  | zero => intro n c hc; simp [natCharsCore] at hc
  | succ fuel ih =>
    intro n c hc
    by_cases hz : n = 0
    · simp [natCharsCore, hz] at hc
    · simp only [natCharsCore, hz, ite_false, List.mem_append, List.mem_singleton] at hc
      rcases hc with hc | hc
      · exact ih _ _ hc
      · exact ⟨n % 10, hc⟩

theorem mem_natChars_digit {n : Nat} {c : Char} (hc : c ∈ natChars n) :
    ∃ d, c = natDigitChar d := by
  unfold natChars at hc
  by_cases hz : n = 0
  · rw [if_pos hz] at hc
    simp at hc
    exact ⟨0, hc⟩
  · rw [if_neg hz] at hc
    exact mem_natCharsCore_digit _ _ _ hc

theorem natChars_ne_nil (n : Nat) : natChars n ≠ [] := by
  unfold natChars
  by_cases hz : n = 0
  · simp [hz]
  · rw [if_neg hz]
    exact natCharsCore_ne_nil (Nat.pos_of_ne_zero hz) (Nat.lt_succ_self n)

/-! ### strconv.ParseInt(s, 10, 64) -/

/-- Signed 64-bit decimal integer parse, as Go `strconv.ParseInt(s, 10, 64)`:
optional sign, then one or more decimal digits, result within
`[-2^63, 2^63 - 1]`; `none` models a non-nil Go error (syntax or range). -/
def parseInt64 (s : String) : Option Int :=
  match s.data with
  | [] => none
  | c :: cs =>
    if c = '+' then
      match parseNatChars cs with
      | none => none
      | some n => if n ≤ 9223372036854775807 then some (n : Int) else none
    else if c = '-' then
      match parseNatChars cs with
      | none => none
      | some n => if n ≤ 9223372036854775808 then some (-(n : Int)) else none
    else
      match parseNatChars (c :: cs) with
      | none => none
      | some n => if n ≤ 9223372036854775807 then some (n : Int) else none

/-- Go source: `MergeConditionIfValueIsLarger` — parse both sides as int64;
resolved value is the new string, needs-write exactly when new > old. -/
def MergeConditionIfValueIsLarger (oldValue newValue : String) :
    String × Bool × Option String :=
  match parseInt64 newValue with
  | none => (newValue, false, some "new value is not int64")
  | some v =>
    match parseInt64 oldValue with
    | none => (newValue, false, some "old value is not int64")
    | some old => (newValue, decide (old < v), none)


/-! ### CPU-index sets

Modelled from the spec: the repository's `pkg/util/cpuset` package (parse,
`IsSubsetOf`, `Union`, `String`) is an external collaborator not included in
the sources; the spec describes it as "CPU-index set expressions" with a
"canonical string form" (comma-separated indices and inclusive dash ranges).
A set is represented as a strictly increasing list of indices. -/

/-- Split a character list on a separator; always returns at least one piece. -/
def splitOnChar (sep : Char) : List Char → List (List Char)
  | [] => [[]]
  | c :: cs =>
    let r := splitOnChar sep cs
    if c = sep then [] :: r else (c :: r.headD []) :: r.tail

/-- Join pieces with a separator character. -/
def joinSep (sep : Char) : List (List Char) → List Char
  | [] => []
  | [p] => p
  | p :: q :: ps => p ++ sep :: joinSep sep (q :: ps)

theorem splitOnChar_sepFree (sep : Char) (p : List Char)
    (hp : ∀ c ∈ p, c ≠ sep) : splitOnChar sep p = [p] := by
  induction p with
  | nil => rfl
  | cons c cs ih =>
    have hc : c ≠ sep := hp c (List.mem_cons_self c cs)
    have hcs : ∀ x ∈ cs, x ≠ sep := fun x hx => hp x (List.mem_cons_of_mem c hx)
    simp only [splitOnChar, if_neg hc, ih hcs, List.headD, List.tail]

theorem splitOnChar_append_sep (sep : Char) (p rest : List Char)
    (hp : ∀ c ∈ p, c ≠ sep) :
    splitOnChar sep (p ++ sep :: rest) = p :: splitOnChar sep rest := by
  induction p with
  | nil => simp [splitOnChar]
  | cons c cs ih =>
    have hc : c ≠ sep := hp c (List.mem_cons_self c cs)
    have hcs : ∀ x ∈ cs, x ≠ sep := fun x hx => hp x (List.mem_cons_of_mem c hx)
    show splitOnChar sep (c :: (cs ++ sep :: rest)) = (c :: cs) :: splitOnChar sep rest
    simp only [splitOnChar, if_neg hc, ih hcs, List.headD, List.tail]

theorem splitOnChar_joinSep (sep : Char) :
    ∀ ps : List (List Char), ps ≠ [] → (∀ p ∈ ps, ∀ c ∈ p, c ≠ sep) →
      splitOnChar sep (joinSep sep ps) = ps := by
  intro ps
  induction ps with
  | nil => intro h; exact absurd rfl h
  | cons p qs ih =>
    intro _ hfree
    cases qs with
    | nil =>
      exact splitOnChar_sepFree sep p (hfree p (List.mem_cons_self p []))
    | cons q rs =>
      have hp : ∀ c ∈ p, c ≠ sep := hfree p (List.mem_cons_self p (q :: rs))
      have hqs : ∀ x ∈ q :: rs, ∀ c ∈ x, c ≠ sep :=
        fun x hx => hfree x (List.mem_cons_of_mem p hx)
      have hrec := ih (by simp) hqs
      simp only [joinSep, splitOnChar_append_sep sep p _ hp, hrec]

/-! Strictly increasing lists and normalization (sorted deduplication). -/

/-- Head lower bound: the head (if any) lies above `b`. -/
def lbB (b : Nat) : List Nat → Bool
  | [] => true
  | x :: _ => decide (b < x)

/-- Strictly increasing list check. -/
def sortedLtB : List Nat → Bool
  | [] => true
  | [_] => true
  | x :: y :: rest => decide (x < y) && sortedLtB (y :: rest)

theorem sortedLtB_cons (y : Nat) (l : List Nat) :
    sortedLtB (y :: l) = (lbB y l && sortedLtB l) := by
  cases l <;> simp [sortedLtB, lbB]

/-- Sorted insertion skipping duplicates. -/
def insS (x : Nat) : List Nat → List Nat
  | [] => [x]
  | y :: ys => if x < y then x :: y :: ys else if x = y then y :: ys else y :: insS x ys

/-- Normalization: sort into a strictly increasing list, dropping duplicates. -/
def normSet : List Nat → List Nat
  | [] => []
  | x :: xs => insS x (normSet xs)

theorem mem_insS (a x : Nat) (l : List Nat) : a ∈ insS x l ↔ a = x ∨ a ∈ l := by
  induction l with
  | nil => simp [insS]
  | cons y ys ih =>
    by_cases h1 : x < y
    · simp [insS, h1]
    · by_cases h2 : x = y
      · subst h2
        have hred : insS x (x :: ys) = x :: ys := by simp [insS, h1]
        rw [hred]
        simp only [List.mem_cons]
        tauto
      · simp only [insS, if_neg h1, if_neg h2, List.mem_cons, ih]
        tauto

theorem lbB_insS {b x : Nat} {l : List Nat} (hb : lbB b l = true) (hx : b < x) :
    lbB b (insS x l) = true := by
  cases l with
  | nil => simpa [insS, lbB]
  | cons y ys =>
    by_cases h1 : x < y
    · simpa [insS, h1, lbB]
    · by_cases h2 : x = y
      · simpa [insS, h1, h2, lbB] using hb
      · simpa [insS, h1, h2, lbB] using hb

theorem sortedLtB_insS {x : Nat} {l : List Nat} (hl : sortedLtB l = true) :
    sortedLtB (insS x l) = true := by
  induction l with
  | nil => simp [insS, sortedLtB]
  | cons y ys ih =>
    rw [sortedLtB_cons] at hl
    obtain ⟨hlb, hys⟩ := Bool.and_eq_true_iff.mp hl
    by_cases h1 : x < y
    · simp only [insS, if_pos h1]
      rw [sortedLtB_cons]
      refine Bool.and_eq_true_iff.mpr ⟨by simp [lbB, h1], ?_⟩
      rw [sortedLtB_cons]
      exact Bool.and_eq_true_iff.mpr ⟨hlb, hys⟩
    · by_cases h2 : x = y
      · simp only [insS, if_neg h1, if_pos h2]
        rw [sortedLtB_cons]
        exact Bool.and_eq_true_iff.mpr ⟨hlb, hys⟩
      · have hyx : y < x := by omega
        simp only [insS, if_neg h1, if_neg h2]
        rw [sortedLtB_cons]
        exact Bool.and_eq_true_iff.mpr ⟨lbB_insS hlb hyx, ih hys⟩

theorem sortedLtB_normSet (l : List Nat) : sortedLtB (normSet l) = true := by
  induction l with
  | nil => simp [normSet, sortedLtB]
  | cons x xs ih => exact sortedLtB_insS ih

theorem mem_normSet (a : Nat) (l : List Nat) : a ∈ normSet l ↔ a ∈ l := by
  induction l with
  | nil => simp [normSet]
  | cons x xs ih =>
    simp only [normSet, mem_insS, List.mem_cons, ih]

theorem insS_sorted_cons {x : Nat} {xs : List Nat}
    (h : sortedLtB (x :: xs) = true) : insS x xs = x :: xs := by
  cases xs with
  | nil => rfl
  | cons y ys =>
    have hx : x < y := by
      simp only [sortedLtB, Bool.and_eq_true_iff, decide_eq_true_eq] at h
      exact h.1
    simp [insS, hx]

theorem sortedLtB_tail {x : Nat} {xs : List Nat}
    (h : sortedLtB (x :: xs) = true) : sortedLtB xs = true := by
  rw [sortedLtB_cons] at h
  exact (Bool.and_eq_true_iff.mp h).2

theorem normSet_eq_self {l : List Nat} (h : sortedLtB l = true) : normSet l = l := by
  induction l with
  | nil => rfl
  | cons x xs ih =>
    have htl := sortedLtB_tail h
    simp only [normSet, ih htl, insS_sorted_cons h]

/-- Inclusive arithmetic run `a, a+1, ..., a+k-1`. -/
def expandFrom (a : Nat) : Nat → List Nat
  | 0 => []
  | k + 1 => a :: expandFrom (a + 1) k

theorem expandFrom_concat (a k : Nat) :
    expandFrom a (k + 1) = expandFrom a k ++ [a + k] := by
  induction k generalizing a with
  | zero => rfl
  | succ k ih =>
    show a :: expandFrom (a + 1) (k + 1) = (a :: expandFrom (a + 1) k) ++ [a + k + 1]
    rw [ih (a + 1)]
    simp [Nat.add_assoc, Nat.add_comm 1 k]

theorem mem_expandFrom (x a k : Nat) : x ∈ expandFrom a k ↔ a ≤ x ∧ x < a + k := by
  induction k generalizing a with
  | zero => simp [expandFrom]
  | succ k ih =>
    simp only [expandFrom, List.mem_cons, ih (a + 1)]
    omega

/-- Group a strictly increasing list into maximal runs, carried as
`(start, current)
` pairs. -/
def rangesAux (start cur : Nat) : List Nat → List (Nat × Nat)
  | [] => [(start, cur)]
  | y :: ys => if y = cur + 1 then rangesAux start y ys else (start, cur) :: rangesAux y y ys

/-- Maximal runs of a strictly increasing list. -/
def ranges : List Nat → List (Nat × Nat)
  | [] => []
  | x :: xs => rangesAux x x xs

/-- Canonical rendering of one run: `a` for a singleton, `a-b` otherwise. -/
def renderRange (a b : Nat) : List Char :=
  if a = b then natChars a else natChars a ++ '-' :: natChars b

/-- Interpret the dash-split parts of one piece: a single index or an
inclusive range. -/
def parsePieceParts : List (List Char) → Option (List Nat)
  | [p] =>
    match parseNatChars p with
    | none => none
    | some n => some [n]
  | [p, q] =>
    match parseNatChars p, parseNatChars q with
    | some a, some b => if a ≤ b then some (expandFrom a (b + 1 - a)) else none
    | _, _ => none
  | _ => none

/-- Parse one comma-separated piece: a single index or an inclusive range. -/
def parsePiece (cs : List Char) : Option (List Nat) :=
  parsePieceParts (splitOnChar '-' cs)

/-- Option-valued map over a list, failing if any element fails. -/
def mapOpt {α β : Type} (f : α → Option β) : List α → Option (List β)
  | [] => some []
  | a :: as =>
    match f a, mapOpt f as with
    | some b, some bs => some (b :: bs)
    | _, _ => none

/-- CPU-index set expression parse (modelled from the spec): comma-separated
single indices and inclusive ranges; the empty string is the empty set. -/
def cpuParseChars (cs : List Char) : Option (List Nat) :=
  if cs = [] then some []
  else
    match mapOpt parsePiece (splitOnChar ',' cs) with
    | none => none
    | some ls => some (normSet ls.flatten)

/-- Canonical string form (modelled from the spec): maximal runs joined by
commas. -/
def cpuStringChars (l : List Nat) : List Char :=
  joinSep ',' ((ranges l).map (fun p => renderRange p.1 p.2))

def cpuParse (s : String) : Option (List Nat) := cpuParseChars s.data

def cpuString (l : List Nat) : String := String.mk (cpuStringChars l)

/-- Subset test of the set algebra collaborator. -/
def cpuIsSubsetOf (a b : List Nat) : Bool := a.all (fun x => b.contains x)

/-- Union of the set algebra collaborator, renormalized. -/
def cpuUnion (a b : List Nat) : List Nat := normSet (a ++ b)

theorem natChars_no_dash {c : Char} {n : Nat} (hc : c ∈ natChars n) : c ≠ '-' := by
  obtain ⟨d, rfl⟩ := mem_natChars_digit hc
  exact natDigitChar_ne_dash d

theorem natChars_no_comma {c : Char} {n : Nat} (hc : c ∈ natChars n) : c ≠ ',' := by
  obtain ⟨d, rfl⟩ := mem_natChars_digit hc
  exact natDigitChar_ne_comma d

theorem renderRange_no_comma {a b : Nat} {c : Char} (hc : c ∈ renderRange a b) :
    c ≠ ',' := by
  unfold renderRange at hc
  by_cases hab : a = b
  · rw [if_pos hab] at hc
    exact natChars_no_comma hc
  · rw [if_neg hab] at hc
    rcases List.mem_append.mp hc with h | h
    · exact natChars_no_comma h
    · rcases List.mem_cons.mp h with h | h
      · subst h; decide
      · exact natChars_no_comma h

theorem renderRange_ne_nil (a b : Nat) : renderRange a b ≠ [] := by
  unfold renderRange
  by_cases hab : a = b
  · rw [if_pos hab]; exact natChars_ne_nil a
  · rw [if_neg hab]
    intro h
    exact natChars_ne_nil a (List.append_eq_nil.mp h).1

/-- Parsing one rendered run recovers exactly its expansion. -/
theorem parsePiece_renderRange {a b : Nat} (hab : a ≤ b) :
    parsePiece (renderRange a b) = some (expandFrom a (b + 1 - a)) := by
  by_cases heq : a = b
  · subst heq
    unfold renderRange parsePiece
    rw [if_pos rfl, splitOnChar_sepFree _ _ (fun c hc => natChars_no_dash hc)]
    simp only [parsePieceParts, parseNatChars_natChars]
    have h1 : a + 1 - a = 1 := by omega
    simp [h1, expandFrom]
  · unfold renderRange parsePiece
    rw [if_neg heq,
      splitOnChar_append_sep _ _ _ (fun c hc => natChars_no_dash hc),
      splitOnChar_sepFree _ _ (fun c hc => natChars_no_dash hc)]
    simp only [parsePieceParts, parseNatChars_natChars]
    simp [hab]

theorem rangesAux_ne_nil (start cur : Nat) (l : List Nat) :
    rangesAux start cur l ≠ [] := by
  induction l generalizing start cur with
  | nil => simp [rangesAux]
  | cons y ys ih =>
    unfold rangesAux
    by_cases hy : y = cur + 1
    · rw [if_pos hy]; exact ih _ _
    · rw [if_neg hy]; simp

/-- Every run produced from a strictly increasing tail is well ordered. -/
theorem rangesAux_le (l : List Nat) :
    ∀ start cur, start ≤ cur → sortedLtB (cur :: l) = true →
      ∀ p ∈ rangesAux start cur l, p.1 ≤ p.2 := by
  induction l with
  | nil =>
    intro start cur hsc _ p hp
    simp only [rangesAux, List.mem_singleton] at hp
    subst hp; exact hsc
  | cons y ys ih =>
    intro start cur hsc hsorted p hp
    have hlt : cur < y := by
      simp only [sortedLtB, Bool.and_eq_true_iff, decide_eq_true_eq] at hsorted
      exact hsorted.1
    have htail : sortedLtB (y :: ys) = true := sortedLtB_tail hsorted
    unfold rangesAux at hp
    by_cases hy : y = cur + 1
    · rw [if_pos hy] at hp
      exact ih start y (by omega) htail p hp
    · rw [if_neg hy] at hp
      rcases List.mem_cons.mp hp with h | h
      · subst h; exact hsc
      · exact ih y y (Nat.le_refl y) htail p h

/-- Flattening the expansions of the runs recovers the original strictly
increasing list. -/
theorem rangesAux_flatten (l : List Nat) :
    ∀ start cur, start ≤ cur → sortedLtB (cur :: l) = true →
      ((rangesAux start cur l).map (fun p => expandFrom p.1 (p.2 + 1 - p.1))).flatten
        = expandFrom start (cur + 1 - start) ++ l := by
  induction l with
  | nil =>
    intro start cur _ _
    simp [rangesAux]
  | cons y ys ih =>
    intro start cur hsc hsorted
    have hlt : cur < y := by
      simp only [sortedLtB, Bool.and_eq_true_iff, decide_eq_true_eq] at hsorted
      exact hsorted.1
    have htail : sortedLtB (y :: ys) = true := sortedLtB_tail hsorted
    unfold rangesAux
    by_cases hy : y = cur + 1
    · rw [if_pos hy]
      rw [ih start y (by omega) htail]
      have hstep : expandFrom start (y + 1 - start) =
          expandFrom start (cur + 1 - start) ++ [cur + 1] := by
        have h1 : y + 1 - start = (cur + 1 - start) + 1 := by omega
        rw [h1, expandFrom_concat]
        have h2 : start + (cur + 1 - start) = cur + 1 := by omega
        rw [h2]
      rw [hstep, hy]
      simp
    · rw [if_neg hy]
      simp only [List.map_cons, List.flatten_cons]
      rw [ih y y (Nat.le_refl y) htail]
      have h1 : y + 1 - y = 1 := by omega
      rw [h1]
      simp [expandFrom]

/-- Parsing the rendered pieces of well-ordered runs succeeds elementwise. -/
theorem mapOpt_parsePiece_render (prs : List (Nat × Nat))
    (h : ∀ p ∈ prs, p.1 ≤ p.2) :
    mapOpt parsePiece (prs.map (fun p => renderRange p.1 p.2))
      = some (prs.map (fun p => expandFrom p.1 (p.2 + 1 - p.1))) := by
  induction prs with
  | nil => rfl
  | cons p ps ih =>
    have hp := h p (List.mem_cons_self p ps)
    have hps := fun q hq => h q (List.mem_cons_of_mem p hq)
    simp only [List.map_cons, mapOpt, parsePiece_renderRange hp, ih hps]

/-- Round trip: the canonical string of a strictly increasing list parses back
to exactly that list. -/
theorem cpuParseChars_cpuStringChars {l : List Nat} (hl : sortedLtB l = true) :
    cpuParseChars (cpuStringChars l) = some l := by
  cases l with
  | nil => rfl
  | cons x xs =>
    have hle := rangesAux_le xs x x (Nat.le_refl x) hl
    have hpieces :
        mapOpt parsePiece ((rangesAux x x xs).map (fun p => renderRange p.1 p.2))
          = some ((rangesAux x x xs).map (fun p => expandFrom p.1 (p.2 + 1 - p.1))) :=
      mapOpt_parsePiece_render _ hle
    have hflat := rangesAux_flatten xs x x (Nat.le_refl x) hl
    have hx1 : x + 1 - x = 1 := by omega
    rw [hx1] at hflat
    have hne : (rangesAux x x xs).map (fun p => renderRange p.1 p.2) ≠ [] := by
      intro h
      exact rangesAux_ne_nil x x xs (List.map_eq_nil_iff.mp h)
    have hfree : ∀ q ∈ (rangesAux x x xs).map (fun p => renderRange p.1 p.2),
        ∀ c ∈ q, c ≠ ',' := by
      intro q hq c hc
      obtain ⟨p, _, rfl⟩ := List.mem_map.mp hq
      exact renderRange_no_comma hc
    have hsplit :=
      splitOnChar_joinSep ',' ((rangesAux x x xs).map (fun p => renderRange p.1 p.2))
        hne hfree
    have hjne : cpuStringChars (x :: xs) ≠ [] := by
      unfold cpuStringChars ranges
      cases hr : (rangesAux x x xs).map (fun p => renderRange p.1 p.2) with
      | nil => exact absurd hr hne
      | cons q qs =>
        have hqne : q ≠ [] := by
          have : q ∈ (rangesAux x x xs).map (fun p => renderRange p.1 p.2) := by
            rw [hr]; exact List.mem_cons_self q qs
          obtain ⟨p, _, rfl⟩ := List.mem_map.mp this
          exact renderRange_ne_nil p.1 p.2
        cases qs with
        | nil => simpa [joinSep]
        | cons r rs =>
          simp only [joinSep]
          intro habs
          exact hqne (List.append_eq_nil.mp habs).1
    unfold cpuParseChars
    rw [if_neg hjne]
    simp only [cpuStringChars, ranges]
    rw [hsplit, hpieces]
    show some (normSet
      ((List.map (fun p => expandFrom p.1 (p.2 + 1 - p.1)) (rangesAux x x xs)).flatten))
        = some (x :: xs)
    rw [hflat]
    simp [expandFrom, normSet_eq_self hl]

/-- Go source: `MergeConditionIfCPUSetIsLooser` — parse both sides as cpusets;
skip when the new set is a subset of the old; otherwise write the canonical
rendering of the union. -/
def MergeConditionIfCPUSetIsLooser (oldValue newValue : String) :
    String × Bool × Option String :=
  match cpuParse newValue with
  | none => (newValue, false, some "new value is not valid cpuset")
  | some v =>
    match cpuParse oldValue with
    | none => (newValue, false, some "old value is not valid cpuset")
    | some old =>
      if cpuIsSubsetOf v old then (newValue, false, none)
      else (cpuString (cpuUnion v old), true, none)

theorem cpuParse_cpuString {l : List Nat} (hl : sortedLtB l = true) :
    cpuParse (cpuString l) = some l := by
  unfold cpuParse cpuString
  exact cpuParseChars_cpuStringChars hl

theorem mem_cpuUnion_right {x : Nat} {a b : List Nat} (hx : x ∈ b) :
    x ∈ cpuUnion a b := by
  unfold cpuUnion
  rw [mem_normSet]
  exact List.mem_append.mpr (Or.inr hx)

theorem sortedLtB_cpuUnion (a b : List Nat) : sortedLtB (cpuUnion a b) = true :=
  sortedLtB_normSet (a ++ b)

/-! ### Resource descriptors and updaters -/

/-- Audit reason tag constant of the source. -/
def ReasonUpdateCgroups : String := "UpdateCgroups"

/-- Audit reason tag constant of the source. -/
def ReasonUpdateSystemConfig : String := "UpdateSystemConfig"

/-- External resource descriptor (`sysutil.Resource`): identity, file name and
the kind-owned validity rule `IsValid(value) → (bool, message)`. -/
structure Resource where
  resourceType : String
  filename : String
  IsValid : String → Bool × String

/-- Modelled from the spec: descriptor path resolution (`Path(parentDir)`) is
an external collaborator; a path is fully determined by descriptor identity
plus parent directory. -/
def Resource.Path (r : Resource) (parentDir : String) : String :=
  parentDir ++ "/" ++ r.filename

/-- `MergeConditionFunc` of the source:
`(oldValue, newValue) ↦ (mergedValue, needMerge, err)`. -/
abbrev MergeConditionFunc := String → String → String × Bool × Option String

/-- `CgroupResourceUpdater` of the source. Every constructor in the source
installs `CommonCgroupUpdateFunc` as `updateFunc`, and `mergeUpdateFunc` is
either nil or the closure `fun r => MergeFuncUpdateCgroup(r, mergeCondition)`
built by `NewMergeableCgroupUpdaterWithCondition`; that closure is stored here
defunctionalized as its captured merge condition (`none` models a nil
`mergeUpdateFunc`). -/
structure CgroupResourceUpdater where
  file : Resource
  parentDir : String
  value : String
  lastUpdateTimestamp : Nat
  mergeCondition : Option MergeConditionFunc

def CgroupResourceUpdater.ResourceType (u : CgroupResourceUpdater) : String :=
  u.file.resourceType

def CgroupResourceUpdater.Path (u : CgroupResourceUpdater) : String :=
  u.file.Path u.parentDir

def CgroupResourceUpdater.Value (u : CgroupResourceUpdater) : String := u.value

/-- Source `Clone`: a fresh holder with every field copied. -/
def CgroupResourceUpdater.Clone (u : CgroupResourceUpdater) : CgroupResourceUpdater :=
  { file := u.file
    parentDir := u.parentDir
    value := u.value
    lastUpdateTimestamp := u.lastUpdateTimestamp
    mergeCondition := u.mergeCondition }

def CgroupResourceUpdater.GetLastUpdateTimestamp (u : CgroupResourceUpdater) : Nat :=
  u.lastUpdateTimestamp

def CgroupResourceUpdater.UpdateLastUpdateTimestamp (u : CgroupResourceUpdater)
    (t : Nat) : CgroupResourceUpdater :=
  { u with lastUpdateTimestamp := t }

/-- Direct field assignment `u.value = v` (used on clones by the merge driver). -/
def CgroupResourceUpdater.setValue (u : CgroupResourceUpdater) (v : String) :
    CgroupResourceUpdater :=
  { u with value := v }

/-- `filepath.Join` of dir and file, modelled as plain slash concatenation. -/
def joinPath (dir file : String) : String := dir ++ "/" ++ file

/-- `DefaultResourceUpdater` of the source; its `updateFunc` is
`CommonDefaultUpdateFunc` in the one constructor of the file. -/
structure DefaultResourceUpdater where
  value : String
  dir : String
  file : String
  lastUpdateTimestamp : Nat

def DefaultResourceUpdater.ResourceType (u : DefaultResourceUpdater) : String :=
  u.file

def DefaultResourceUpdater.Path (u : DefaultResourceUpdater) : String :=
  joinPath u.dir u.file

def DefaultResourceUpdater.Value (u : DefaultResourceUpdater) : String := u.value

def DefaultResourceUpdater.Clone (u : DefaultResourceUpdater) : DefaultResourceUpdater :=
  { file := u.file
    dir := u.dir
    value := u.value
    lastUpdateTimestamp := u.lastUpdateTimestamp }

def DefaultResourceUpdater.GetLastUpdateTimestamp (u : DefaultResourceUpdater) : Nat :=
  u.lastUpdateTimestamp

def DefaultResourceUpdater.UpdateLastUpdateTimestamp (u : DefaultResourceUpdater)
    (t : Nat) : DefaultResourceUpdater :=
  { u with lastUpdateTimestamp := t }

def DefaultResourceUpdater.setValue (u : DefaultResourceUpdater) (v : String) :
    DefaultResourceUpdater :=
  { u with value := v }

/-- The `ResourceUpdater` interface as a closed sum of the concrete variants
implemented in the source. -/
inductive ResourceUpdaterI where
  | cgroup : CgroupResourceUpdater → ResourceUpdaterI
  | default : DefaultResourceUpdater → ResourceUpdaterI

def ResourceUpdaterI.Value : ResourceUpdaterI → String
  | .cgroup u => u.Value
  | .default u => u.Value

def ResourceUpdaterI.GetLastUpdateTimestamp : ResourceUpdaterI → Nat
  | .cgroup u => u.GetLastUpdateTimestamp
  | .default u => u.GetLastUpdateTimestamp

def ResourceUpdaterI.UpdateLastUpdateTimestamp : ResourceUpdaterI → Nat → ResourceUpdaterI
  | .cgroup u, t => .cgroup (u.UpdateLastUpdateTimestamp t)
  | .default u, t => .default (u.UpdateLastUpdateTimestamp t)

def ResourceUpdaterI.setValue : ResourceUpdaterI → String → ResourceUpdaterI
  | .cgroup u, v => .cgroup (u.setValue v)
  | .default u, v => .default (u.setValue v)

/-- Interface `Clone` dispatching to the variant implementations. -/
def ResourceUpdaterI.Clone : ResourceUpdaterI → ResourceUpdaterI
  | .cgroup u => .cgroup u.Clone
  | .default u => .default u.Clone

/-- Strategy identity observable on an updater: the (defunctionalized) merge
strategy; default updaters have none. -/
def ResourceUpdaterI.mergeStrategy : ResourceUpdaterI → Option MergeConditionFunc
  | .cgroup u => u.mergeCondition
  | .default _ => none

/-- `GuestCgroupResourceUpdater`: an embedded cgroup updater plus the sandbox
identity used to reach the file inside an isolated execution context. -/
structure GuestCgroupResourceUpdater where
  base : CgroupResourceUpdater
  sandboxID : String

/-- The promoted `Clone` of the embedded `*CgroupResourceUpdater`: the source
declares no `Clone` override on `GuestCgroupResourceUpdater`, so `g.Clone()`
runs `CgroupResourceUpdater.Clone` and yields a plain cgroup updater. -/
def GuestCgroupResourceUpdater.Clone (g : GuestCgroupResourceUpdater) :
    ResourceUpdaterI :=
  ResourceUpdaterI.cgroup g.base.Clone

/-! ### External read and write primitives -/

/-- `sysutil.CgroupFileRead` (modelled from the spec: external read primitive;
absence of the path is the failure case). -/
def CgroupFileRead (parentDir : String) (r : Resource) (w : Sys) :
    Except String String :=
  match alookup w.fs (r.Path parentDir) with
  | some v => Except.ok v
  | none => Except.error ("failed to read " ++ r.Path parentDir)

/-- `sysutil.CgroupFileWrite` (modelled from the spec: external unconditional
write primitive; paths listed in `failWrites` report an error). -/
def CgroupFileWrite (parentDir : String) (r : Resource) (v : String) (w : Sys) :
    Option String × Sys :=
  let p := r.Path parentDir
  if w.failWrites.contains p then (some ("failed to write " ++ p), w)
  else (none, { w with fs := setFs w.fs p v })

/-- Modelled from the spec: the external write-only-if-different primitive
(`CgroupFileWriteIfDifferent` / `CommonFileWriteIfDifferent`): read, skip when
equal, otherwise write. -/
def fileWriteIfDifferent (p v : String) (w : Sys) :
    Option String × Sys × List Effect :=
  match alookup w.fs p with
  | none => (some ("failed to read " ++ p), w, [Effect.eread p])
  | some cur =>
    if cur = v then (none, w, [Effect.eread p])
    else if w.failWrites.contains p then
      (some ("failed to write " ++ p), w, [Effect.eread p, Effect.ewrite p v])
    else
      (none, { w with fs := setFs w.fs p v }, [Effect.eread p, Effect.ewrite p v])

/-- Result of a plain update strategy call: error, post state, effect trace. -/
structure UpdOut where
  err : Option String
  sys : Sys
  trace : List Effect

/-- Source `CommonCgroupUpdateFunc`: audit, then write-if-different against the
resolved cgroup path. -/
def CommonCgroupUpdateFunc (c : CgroupResourceUpdater) (w : Sys) : UpdOut :=
  let p := c.file.Path c.parentDir
  let res := fileWriteIfDifferent p c.value w
  ⟨res.1, res.2.1,
    Effect.eaudit ReasonUpdateCgroups ("update " ++ p ++ " to " ++ c.value) :: res.2.2⟩

/-- Source `CommonDefaultUpdateFunc`: audit, then write-if-different against
`join(dir, file)`. -/
def CommonDefaultUpdateFunc (c : DefaultResourceUpdater) (w : Sys) : UpdOut :=
  let p := c.Path
  let res := fileWriteIfDifferent p c.value w
  ⟨res.1, res.2.1,
    Effect.eaudit ReasonUpdateSystemConfig ("update " ++ p ++ " to " ++ c.value) :: res.2.2⟩

/-- Source `Update()` on a cgroup updater: invoke its update strategy (always
`CommonCgroupUpdateFunc` in this file). -/
def CgroupResourceUpdater.Update (u : CgroupResourceUpdater) (w : Sys) : UpdOut :=
  CommonCgroupUpdateFunc u w

/-- Source `Update()` on a default updater. -/
def DefaultResourceUpdater.Update (u : DefaultResourceUpdater) (w : Sys) : UpdOut :=
  CommonDefaultUpdateFunc u w

/-! ### Merge update driver -/

/-- Result of `MergeFuncUpdateCgroup`: returned updater, error, post state,
effect trace. -/
structure ExecOut where
  updater : CgroupResourceUpdater
  err : Option String
  sys : Sys
  trace : List Effect

/-- Source `MergeFuncUpdateCgroup`: validate the pending value, read the old
on-disk value, evaluate the merge condition; skip (returning a value-updated
clone) or audit and write unconditionally (returning the original). -/
def MergeFuncUpdateCgroup (c : CgroupResourceUpdater)
    (mergeCondition : MergeConditionFunc) (w : Sys) : ExecOut :=
  let p := c.file.Path c.parentDir
  let chk := c.file.IsValid c.value
  if chk.1 then
    match CgroupFileRead c.parentDir c.file w with
    | Except.error e => ⟨c, some e, w, [Effect.eread p]⟩
    | Except.ok oldStr =>
      let t := mergeCondition oldStr c.value
      match t.2.2 with
      | some e => ⟨c, some e, w, [Effect.eread p]⟩
      | none =>
        if t.2.1 then
          let res := CgroupFileWrite c.parentDir c.file t.1 w
          ⟨c, res.1, res.2,
            [Effect.eread p,
             Effect.eaudit ReasonUpdateCgroups ("update " ++ p ++ " to " ++ c.value),
             Effect.ewrite p t.1]⟩
        else
          ⟨c.Clone.setValue oldStr, none, w, [Effect.eread p]⟩
  else
    ⟨c, some ("parse new value failed, err: " ++ chk.2), w, []⟩

/-- Result of `MergeUpdate()`: the returned `ResourceUpdater` interface value
(`none` models a nil interface), error, post state, effect trace. -/
structure MergeOut where
  ret : Option ResourceUpdaterI
  err : Option String
  sys : Sys
  trace : List Effect

/-- Source `MergeUpdate()` on a cgroup updater: with a nil `mergeUpdateFunc`
it returns `nil, updateFunc(u)`; otherwise it runs the merge driver with the
stored condition. -/
def CgroupResourceUpdater.MergeUpdate (u : CgroupResourceUpdater) (w : Sys) :
    MergeOut :=
  match u.mergeCondition with
  | none =>
    let o := CommonCgroupUpdateFunc u w
    ⟨none, o.err, o.sys, o.trace⟩
  | some cond =>
    let o := MergeFuncUpdateCgroup u cond w
    ⟨some (ResourceUpdaterI.cgroup o.updater), o.err, o.sys, o.trace⟩

/-- Source `MergeUpdate()` on a default updater: always `nil, updateFunc(u)`. -/
def DefaultResourceUpdater.MergeUpdate (u : DefaultResourceUpdater) (w : Sys) :
    MergeOut :=
  let o := CommonDefaultUpdateFunc u w
  ⟨none, o.err, o.sys, o.trace⟩

/-! ### Updater factory / registry -/

/-- `NewResourceUpdaterFunc`: constructor from (resourceType, parentDir,
value). -/
abbrev NewResourceUpdaterFunc := String → String → String → Except String ResourceUpdaterI

/-- The factory registry (`CgroupUpdaterFactoryImpl.registry`) as an
association list keyed by resource type; the reader/writer lock of the source
is dropped in this sequential model. -/
abbrev RegistryT := List (String × NewResourceUpdaterFunc)

/-- Source `Register`: for each kind in order, install the constructor unless
the kind is already present (already-present kinds are left unchanged). -/
def registerKinds (g : NewResourceUpdaterFunc) : List String → RegistryT → RegistryT
  | [], r => r
  | t :: ts, r =>
    registerKinds g ts (if (alookup r t).isSome then r else r ++ [(t, g)])

/-- A sequence of `Register` calls applied in order. -/
def applyRegisterCalls : List (NewResourceUpdaterFunc × List String) → RegistryT → RegistryT
  | [], r => r
  | (g, ts) :: calls, r => applyRegisterCalls calls (registerKinds g ts r)

/-- Source `New`: look up the constructor for the kind and delegate, or fail
with the kind-not-registered error. -/
def factoryNew (r : RegistryT) (resourceType parentDir value : String) :
    Except String ResourceUpdaterI :=
  match alookup r resourceType with
  | none => Except.error ("resource type " ++ resourceType ++ " not registered")
  | some g => g resourceType parentDir value

/-- The constructor of the first `Register` call whose kind list includes the
kind. -/
def firstCtor : List (NewResourceUpdaterFunc × List String) → String →
    Option NewResourceUpdaterFunc
  | [], _ => none
  | (g, ts) :: calls, t => if t ∈ ts then some g else firstCtor calls t

theorem alookup_append {α : Type} (r1 r2 : List (String × α)) (t : String) :
    alookup (r1 ++ r2) t =
      match alookup r1 t with
      | some v => some v
      | none => alookup r2 t := by
  induction r1 with
  | nil => simp [alookup]
  | cons hd tl ih =>
    obtain ⟨k, v⟩ := hd
    by_cases hk : k = t
    · simp [alookup, hk]
    · simp [alookup, hk, ih]

theorem alookup_registerKinds (g : NewResourceUpdaterFunc) :
    ∀ (ts : List String) (r : RegistryT) (t : String),
      alookup (registerKinds g ts r) t =
        match alookup r t with
        | some v => some v
        | none => if t ∈ ts then some g else none := by
  intro ts
  induction ts with
  | nil =>
    intro r t
    cases hv : alookup r t <;> simp [registerKinds, hv]
  | cons t0 ts ih =>
    intro r t
    show alookup (registerKinds g ts (if (alookup r t0).isSome then r else r ++ [(t0, g)])) t = _
    rw [ih]
    by_cases h0 : (alookup r t0).isSome
    · rw [if_pos h0]
      cases hv : alookup r t with
      | some v => simp
      | none =>
        by_cases ht : t = t0
        · subst ht
          rw [hv] at h0
          simp at h0
        · simp [List.mem_cons, ht]
    · rw [if_neg h0]
      rw [alookup_append]
      cases hv : alookup r t with
      | some v => simp
      | none =>
        by_cases ht : t = t0
        · subst ht
          simp [alookup, List.mem_cons]
        · have : alookup [(t0, g)] t = none := by simp [alookup, Ne.symm ht]
          simp only [this, List.mem_cons]
          simp [ht]

theorem alookup_applyRegisterCalls :
    ∀ (calls : List (NewResourceUpdaterFunc × List String)) (r : RegistryT) (t : String),
      alookup (applyRegisterCalls calls r) t =
        match alookup r t with
        | some v => some v
        | none => firstCtor calls t := by
  intro calls
  induction calls with
  | nil =>
    intro r t
    cases hv : alookup r t <;> simp [applyRegisterCalls, firstCtor, hv]
  | cons call calls ih =>
    intro r t
    obtain ⟨g, ts⟩ := call
    show alookup (applyRegisterCalls calls (registerKinds g ts r)) t = _
    rw [ih, alookup_registerKinds]
    cases hv : alookup r t with
    | some v => simp
    | none =>
      by_cases ht : t ∈ ts
      · simp [firstCtor, ht]
      · simp [firstCtor, ht]

/-! ### Object heap

Go `Clone` allocates a fresh struct and hands back a pointer; independence of
the clone from its source is an aliasing statement. Addresses are modelled as
indices into a list of updater objects. -/

def getIdx {α : Type} : List α → Nat → Option α
  | [], _ => none
  | x :: _, 0 => some x
  | _ :: xs, n + 1 => getIdx xs n

def setIdx {α : Type} : List α → Nat → α → List α
  | [], _, _ => []
  | _ :: xs, 0, a => a :: xs
  | x :: xs, n + 1, a => x :: setIdx xs n a

theorem getIdx_lt_length {α : Type} {l : List α} {i : Nat} {a : α}
    (h : getIdx l i = some a) : i < l.length := by
  induction l generalizing i with
  | nil => simp [getIdx] at h
  | cons x xs ih =>
    cases i with
    | zero => simp
    | succ n =>
      have := ih (i := n) h
      simpa [Nat.succ_lt_succ_iff]

theorem getIdx_append_left {α : Type} {l1 : List α} (l2 : List α) {i : Nat}
    (h : i < l1.length) : getIdx (l1 ++ l2) i = getIdx l1 i := by
  induction l1 generalizing i with
  | nil => simp at h
  | cons x xs ih =>
    cases i with
    | zero => rfl
    | succ n =>
      have hn : n < xs.length := by simpa [Nat.succ_lt_succ_iff] using h
      exact ih hn

theorem getIdx_append_length {α : Type} (l : List α) (a : α) :
    getIdx (l ++ [a]) l.length = some a := by
  induction l with
  | nil => rfl
  | cons x xs ih => exact ih

theorem getIdx_setIdx_ne {α : Type} (l : List α) (a : α) {i j : Nat} (h : i ≠ j) :
    getIdx (setIdx l j a) i = getIdx l i := by
  induction l generalizing i j with
  | nil => rfl
  | cons x xs ih =>
    cases j with
    | zero =>
      cases i with
      | zero => exact absurd rfl h
      | succ n => rfl
    | succ m =>
      cases i with
      | zero => rfl
      | succ n => exact ih (fun hnm => h (by rw [hnm]))

/-- Heap of updater objects; Go pointers are indices. -/
abbrev UpdaterHeap := List ResourceUpdaterI

/-- Run `Clone` on the object at `i`, allocating the copy at a fresh address
(the old length); out-of-range indices leave the heap unchanged. -/
def heapClone (h : UpdaterHeap) (i : Nat) : UpdaterHeap × Nat :=
  match getIdx h i with
  | some u => (h ++ [u.Clone], h.length)
  | none => (h, i)

/-- Mutate the value field of the object at `i` in place. -/
def heapSetValue (h : UpdaterHeap) (i : Nat) (v : String) : UpdaterHeap :=
  match getIdx h i with
  | some u => setIdx h i (u.setValue v)
  | none => h

/-- Mutate the timestamp of the object at `i` in place
(`UpdateLastUpdateTimestamp`). -/
def heapSetTimestamp (h : UpdaterHeap) (i : Nat) (t : Nat) : UpdaterHeap :=
  match getIdx h i with
  | some u => setIdx h i (u.UpdateLastUpdateTimestamp t)
  | none => h

/-- Observe `Value()` of the object at `i`. -/
def heapValue (h : UpdaterHeap) (i : Nat) : Option String :=
  (getIdx h i).map ResourceUpdaterI.Value

/-- Observe `GetLastUpdateTimestamp()` of the object at `i`. -/
def heapTimestamp (h : UpdaterHeap) (i : Nat) : Option Nat :=
  (getIdx h i).map ResourceUpdaterI.GetLastUpdateTimestamp

theorem ResourceUpdaterI.Value_Clone (u : ResourceUpdaterI) :
    u.Clone.Value = u.Value := by
  cases u <;> rfl

theorem ResourceUpdaterI.timestamp_Clone (u : ResourceUpdaterI) :
    u.Clone.GetLastUpdateTimestamp = u.GetLastUpdateTimestamp := by
  cases u <;> rfl

theorem ResourceUpdaterI.mergeStrategy_Clone (u : ResourceUpdaterI) :
    u.Clone.mergeStrategy = u.mergeStrategy := by
  cases u <;> rfl

/-! ### Reduction lemmas for the merge driver and the two policies -/

theorem mergeDriver_invalid (c : CgroupResourceUpdater) (cond : MergeConditionFunc)
    (w : Sys) (msg : String) (hvalid : c.file.IsValid c.value = (false, msg)) :
    MergeFuncUpdateCgroup c cond w =
      ⟨c, some ("parse new value failed, err: " ++ msg), w, []⟩ := by
  unfold MergeFuncUpdateCgroup
  rw [hvalid]
  simp

theorem mergeDriver_readFail (c : CgroupResourceUpdater) (cond : MergeConditionFunc)
    (w : Sys) (hvalid : (c.file.IsValid c.value).1 = true)
    (hread : alookup w.fs (c.file.Path c.parentDir) = none) :
    MergeFuncUpdateCgroup c cond w =
      ⟨c, some ("failed to read " ++ c.file.Path c.parentDir), w,
        [Effect.eread (c.file.Path c.parentDir)]⟩ := by
  unfold MergeFuncUpdateCgroup CgroupFileRead
  rw [hread]
  simp [hvalid]

theorem mergeDriver_condErr (c : CgroupResourceUpdater) (cond : MergeConditionFunc)
    (w : Sys) (oldStr m : String) (b : Bool) (e : String)
    (hvalid : (c.file.IsValid c.value).1 = true)
    (hread : alookup w.fs (c.file.Path c.parentDir) = some oldStr)
    (hcond : cond oldStr c.value = (m, b, some e)) :
    MergeFuncUpdateCgroup c cond w =
      ⟨c, some e, w, [Effect.eread (c.file.Path c.parentDir)]⟩ := by
  unfold MergeFuncUpdateCgroup CgroupFileRead
  rw [hread]
  simp [hvalid, hcond]

theorem mergeDriver_skip (c : CgroupResourceUpdater) (cond : MergeConditionFunc)
    (w : Sys) (oldStr m : String)
    (hvalid : (c.file.IsValid c.value).1 = true)
    (hread : alookup w.fs (c.file.Path c.parentDir) = some oldStr)
    (hcond : cond oldStr c.value = (m, false, none)) :
    MergeFuncUpdateCgroup c cond w =
      ⟨c.Clone.setValue oldStr, none, w, [Effect.eread (c.file.Path c.parentDir)]⟩ := by
  unfold MergeFuncUpdateCgroup CgroupFileRead
  rw [hread]
  simp [hvalid, hcond]

theorem mergeDriver_write (c : CgroupResourceUpdater) (cond : MergeConditionFunc)
    (w : Sys) (oldStr m : String)
    (hvalid : (c.file.IsValid c.value).1 = true)
    (hread : alookup w.fs (c.file.Path c.parentDir) = some oldStr)
    (hcond : cond oldStr c.value = (m, true, none)) :
    MergeFuncUpdateCgroup c cond w =
      ⟨c, (CgroupFileWrite c.parentDir c.file m w).1,
        (CgroupFileWrite c.parentDir c.file m w).2,
        [Effect.eread (c.file.Path c.parentDir),
         Effect.eaudit ReasonUpdateCgroups
           ("update " ++ c.file.Path c.parentDir ++ " to " ++ c.value),
         Effect.ewrite (c.file.Path c.parentDir) m]⟩ := by
  unfold MergeFuncUpdateCgroup CgroupFileRead
  rw [hread]
  simp [hvalid, hcond]

theorem valueLarger_newFail {ov nv : String} (h : parseInt64 nv = none) :
    MergeConditionIfValueIsLarger ov nv = (nv, false, some "new value is not int64") := by
  unfold MergeConditionIfValueIsLarger
  rw [h]

theorem valueLarger_oldFail {ov nv : String} {v : Int} (hn : parseInt64 nv = some v)
    (ho : parseInt64 ov = none) :
    MergeConditionIfValueIsLarger ov nv = (nv, false, some "old value is not int64") := by
  unfold MergeConditionIfValueIsLarger
  rw [hn, ho]

theorem valueLarger_ok {ov nv : String} {v o : Int} (hn : parseInt64 nv = some v)
    (ho : parseInt64 ov = some o) :
    MergeConditionIfValueIsLarger ov nv = (nv, decide (o < v), none) := by
  unfold MergeConditionIfValueIsLarger
  rw [hn, ho]

theorem cpuLooser_newFail {ov nv : String} (h : cpuParse nv = none) :
    MergeConditionIfCPUSetIsLooser ov nv =
      (nv, false, some "new value is not valid cpuset") := by
  unfold MergeConditionIfCPUSetIsLooser
  rw [h]

theorem cpuLooser_oldFail {ov nv : String} {v : List Nat} (hn : cpuParse nv = some v)
    (ho : cpuParse ov = none) :
    MergeConditionIfCPUSetIsLooser ov nv =
      (nv, false, some "old value is not valid cpuset") := by
  unfold MergeConditionIfCPUSetIsLooser
  rw [hn, ho]

theorem cpuLooser_subset {ov nv : String} {v o : List Nat} (hn : cpuParse nv = some v)
    (ho : cpuParse ov = some o) (hs : cpuIsSubsetOf v o = true) :
    MergeConditionIfCPUSetIsLooser ov nv = (nv, false, none) := by
  unfold MergeConditionIfCPUSetIsLooser
  rw [hn, ho]
  simp [hs]

theorem cpuLooser_union {ov nv : String} {v o : List Nat} (hn : cpuParse nv = some v)
    (ho : cpuParse ov = some o) (hs : cpuIsSubsetOf v o = false) :
    MergeConditionIfCPUSetIsLooser ov nv = (cpuString (cpuUnion v o), true, none) := by
  unfold MergeConditionIfCPUSetIsLooser
  rw [hn, ho]
  simp [hs]

/-! ### Concrete fixtures -/

/-- A hierarchical memory floor descriptor accepting every value. -/
def memMinFile : Resource :=
  { resourceType := "memory.min", filename := "memory.min", IsValid := fun _ => (true, "") }

/-- A CPU affinity set descriptor accepting every value. -/
def cpusetFile : Resource :=
  { resourceType := "cpuset.cpus", filename := "cpuset.cpus", IsValid := fun _ => (true, "") }

/-- A descriptor rejecting every value. -/
def rejectFile : Resource :=
  { resourceType := "memory.min", filename := "memory.min",
    IsValid := fun _ => (false, "bad value") }

def memMinUpdater (v : String) : CgroupResourceUpdater :=
  { file := memMinFile, parentDir := "/kubepods/pod1", value := v,
    lastUpdateTimestamp := 0, mergeCondition := some MergeConditionIfValueIsLarger }

def cpusetUpdater (v : String) : CgroupResourceUpdater :=
  { file := cpusetFile, parentDir := "/kubepods/pod1", value := v,
    lastUpdateTimestamp := 0, mergeCondition := some MergeConditionIfCPUSetIsLooser }

def sysMem (old : String) : Sys :=
  { fs := [("/kubepods/pod1/memory.min", old)], failWrites := [] }

def sysCpu (old : String) : Sys :=
  { fs := [("/kubepods/pod1/cpuset.cpus", old)], failWrites := [] }

/-! ### Claims -/

/-- Claim C1: for every merge-capable cgroup updater, when the policy reports
no write needed, `MergeFuncUpdateCgroup` returns a clone whose pending
`Value()` is the old on-disk value, with every other field copied from the
original (which, being an input of a pure function, is untouched), nil error,
unchanged filesystem state, and a trace containing no write and no audit
entry (only the read). -/
theorem C1_merge_skip_returns_clone (c : CgroupResourceUpdater)
    (cond : MergeConditionFunc) (w : Sys) (oldStr m : String)
    (hvalid : (c.file.IsValid c.value).1 = true)
    (hread : alookup w.fs (c.file.Path c.parentDir) = some oldStr)
    (hcond : cond oldStr c.value = (m, false, none)) :
    (MergeFuncUpdateCgroup c cond w).updater = c.Clone.setValue oldStr ∧
    (MergeFuncUpdateCgroup c cond w).updater.Value = oldStr ∧
    (MergeFuncUpdateCgroup c cond w).updater.file = c.file ∧
    (MergeFuncUpdateCgroup c cond w).updater.parentDir = c.parentDir ∧
    (MergeFuncUpdateCgroup c cond w).updater.lastUpdateTimestamp = c.lastUpdateTimestamp ∧
    (MergeFuncUpdateCgroup c cond w).updater.mergeCondition = c.mergeCondition ∧
    (MergeFuncUpdateCgroup c cond w).err = none ∧
    (MergeFuncUpdateCgroup c cond w).sys = w ∧
    (MergeFuncUpdateCgroup c cond w).trace = [Effect.eread (c.file.Path c.parentDir)] := by
  rw [mergeDriver_skip c cond w oldStr m hvalid hread hcond]
  exact ⟨rfl, rfl, rfl, rfl, rfl, rfl, rfl, rfl, rfl⟩

theorem C1_merge_skip_returns_clone_witness :
    (MergeFuncUpdateCgroup (memMinUpdater "50") MergeConditionIfValueIsLarger
        (sysMem "100")).updater.Value = "100" ∧
    (MergeFuncUpdateCgroup (memMinUpdater "50") MergeConditionIfValueIsLarger
        (sysMem "100")).err = none ∧
    (MergeFuncUpdateCgroup (memMinUpdater "50") MergeConditionIfValueIsLarger
        (sysMem "100")).trace = [Effect.eread "/kubepods/pod1/memory.min"] := by
  have h := C1_merge_skip_returns_clone (memMinUpdater "50")
    MergeConditionIfValueIsLarger (sysMem "100") "100" "50" rfl (by decide) (by decide)
  exact ⟨h.2.1, h.2.2.2.2.2.2.1, by rw [h.2.2.2.2.2.2.2.2]; rfl⟩

/-- Claim C2: for every merge-capable cgroup updater, when the policy reports
write needed, the driver performs exactly one unconditional write of the
policy-resolved merged value, emits one audit entry with the plain-update
reason and format, and returns the original updater (not a clone) together
with the write's error, which is nil on success. -/
theorem C2_merge_write_returns_original (c : CgroupResourceUpdater)
    (cond : MergeConditionFunc) (w : Sys) (oldStr m : String)
    (hvalid : (c.file.IsValid c.value).1 = true)
    (hread : alookup w.fs (c.file.Path c.parentDir) = some oldStr)
    (hcond : cond oldStr c.value = (m, true, none)) :
    (MergeFuncUpdateCgroup c cond w).updater = c ∧
    (MergeFuncUpdateCgroup c cond w).err = (CgroupFileWrite c.parentDir c.file m w).1 ∧
    (MergeFuncUpdateCgroup c cond w).sys = (CgroupFileWrite c.parentDir c.file m w).2 ∧
    (MergeFuncUpdateCgroup c cond w).trace =
      [Effect.eread (c.file.Path c.parentDir),
       Effect.eaudit ReasonUpdateCgroups
         ("update " ++ c.file.Path c.parentDir ++ " to " ++ c.value),
       Effect.ewrite (c.file.Path c.parentDir) m] ∧
    (w.failWrites.contains (c.file.Path c.parentDir) = false →
      (MergeFuncUpdateCgroup c cond w).err = none) := by
  rw [mergeDriver_write c cond w oldStr m hvalid hread hcond]
  refine ⟨rfl, rfl, rfl, rfl, ?_⟩
  intro hf
  show (CgroupFileWrite c.parentDir c.file m w).1 = none
  have hf2 : c.file.Path c.parentDir ∉ w.failWrites := by simpa using hf
  unfold CgroupFileWrite
  simp [hf2]

theorem C2_merge_write_returns_original_witness :
    (MergeFuncUpdateCgroup (memMinUpdater "200") MergeConditionIfValueIsLarger
        (sysMem "100")).updater = memMinUpdater "200" ∧
    (MergeFuncUpdateCgroup (memMinUpdater "200") MergeConditionIfValueIsLarger
        (sysMem "100")).err = none ∧
    (MergeFuncUpdateCgroup (memMinUpdater "200") MergeConditionIfValueIsLarger
        (sysMem "100")).trace =
      [Effect.eread "/kubepods/pod1/memory.min",
       Effect.eaudit ReasonUpdateCgroups "update /kubepods/pod1/memory.min to 200",
       Effect.ewrite "/kubepods/pod1/memory.min" "200"] := by
  have h := C2_merge_write_returns_original (memMinUpdater "200")
    MergeConditionIfValueIsLarger (sysMem "100") "100" "200" rfl (by decide) (by decide)
  exact ⟨h.1, h.2.2.2.2 rfl, by rw [h.2.2.2.1]; rfl⟩

/-- Claim C4: the scalar-larger policy errors when either side fails to parse
as a signed 64-bit integer; when both parse it resolves to the new value with
needs-write exactly when new > old and nil error. -/
theorem C4_scalar_larger_policy :
    (∀ ov nv : String, parseInt64 nv = none →
      MergeConditionIfValueIsLarger ov nv =
        (nv, false, some "new value is not int64")) ∧
    (∀ (ov nv : String) (v : Int), parseInt64 nv = some v → parseInt64 ov = none →
      MergeConditionIfValueIsLarger ov nv =
        (nv, false, some "old value is not int64")) ∧
    (∀ (ov nv : String) (v o : Int), parseInt64 nv = some v → parseInt64 ov = some o →
      MergeConditionIfValueIsLarger ov nv = (nv, decide (o < v), none)) :=
  ⟨fun _ _ h => valueLarger_newFail h,
   fun _ _ _ hn ho => valueLarger_oldFail hn ho,
   fun _ _ _ _ hn ho => valueLarger_ok hn ho⟩

theorem C4_scalar_larger_policy_witness :
    MergeConditionIfValueIsLarger "5" "10" = ("10", true, none) ∧
    MergeConditionIfValueIsLarger "10" "5" = ("5", false, none) ∧
    MergeConditionIfValueIsLarger "x" "10" = ("10", false, some "old value is not int64") ∧
    MergeConditionIfValueIsLarger "5" "x" = ("x", false, some "new value is not int64") := by
  refine ⟨?_, ?_, ?_, ?_⟩
  · rw [C4_scalar_larger_policy.2.2 "5" "10" 10 5 (by decide) (by decide)]
    decide
  · rw [C4_scalar_larger_policy.2.2 "10" "5" 5 10 (by decide) (by decide)]
    decide
  · exact C4_scalar_larger_policy.2.1 "x" "10" 10 (by decide) (by decide)
  · exact C4_scalar_larger_policy.1 "5" "x" (by decide)

/-- Claim C5: the set-looser policy errors when either side fails to parse as
a CPU-index set expression; when both parse and the new set is a subset of
the old it reports no write needed; otherwise it resolves to the canonical
rendering of the union of old and new with needs-write true and nil error. -/
theorem C5_cpuset_looser_policy :
    (∀ ov nv : String, cpuParse nv = none →
      MergeConditionIfCPUSetIsLooser ov nv =
        (nv, false, some "new value is not valid cpuset")) ∧
    (∀ (ov nv : String) (v : List Nat), cpuParse nv = some v → cpuParse ov = none →
      MergeConditionIfCPUSetIsLooser ov nv =
        (nv, false, some "old value is not valid cpuset")) ∧
    (∀ (ov nv : String) (v o : List Nat), cpuParse nv = some v → cpuParse ov = some o →
      cpuIsSubsetOf v o = true →
      MergeConditionIfCPUSetIsLooser ov nv = (nv, false, none)) ∧
    (∀ (ov nv : String) (v o : List Nat), cpuParse nv = some v → cpuParse ov = some o →
      cpuIsSubsetOf v o = false →
      MergeConditionIfCPUSetIsLooser ov nv = (cpuString (cpuUnion v o), true, none)) :=
  ⟨fun _ _ h => cpuLooser_newFail h,
   fun _ _ _ hn ho => cpuLooser_oldFail hn ho,
   fun _ _ _ _ hn ho hs => cpuLooser_subset hn ho hs,
   fun _ _ _ _ hn ho hs => cpuLooser_union hn ho hs⟩

theorem C5_cpuset_looser_policy_witness :
    MergeConditionIfCPUSetIsLooser "0-3" "1-2" = ("1-2", false, none) ∧
    MergeConditionIfCPUSetIsLooser "0-3" "4-5" = ("0-5", true, none) ∧
    MergeConditionIfCPUSetIsLooser "0-3" "0-5" = ("0-5", true, none) ∧
    MergeConditionIfCPUSetIsLooser "0-x" "1" = ("1", false, some "old value is not valid cpuset") ∧
    MergeConditionIfCPUSetIsLooser "0-3" "y" = ("y", false, some "new value is not valid cpuset") := by
  refine ⟨?_, ?_, ?_, ?_, ?_⟩
  · exact C5_cpuset_looser_policy.2.2.1 "0-3" "1-2" [1, 2] [0, 1, 2, 3]
      (by decide) (by decide) (by decide)
  · rw [C5_cpuset_looser_policy.2.2.2 "0-3" "4-5" [4, 5] [0, 1, 2, 3]
      (by decide) (by decide) (by decide)]
    decide
  · rw [C5_cpuset_looser_policy.2.2.2 "0-3" "0-5" [0, 1, 2, 3, 4, 5] [0, 1, 2, 3]
      (by decide) (by decide) (by decide)]
    decide
  · exact C5_cpuset_looser_policy.2.1 "0-x" "1" [1] (by decide) (by decide)
  · exact C5_cpuset_looser_policy.1 "0-3" "y" (by decide)

/-- Claim C8: on every error path of `MergeFuncUpdateCgroup` the original
updater is returned and no write occurs: an invalid pending value fails
before any read or write (empty trace); a read failure fails with only the
read in the trace and the state unchanged; a merge-condition error is
propagated verbatim with the state unchanged; and the two shipped policies
name the failing side (old/new) in their error messages. -/
theorem C8_merge_error_paths :
    (∀ (c : CgroupResourceUpdater) (cond : MergeConditionFunc) (w : Sys) (msg : String),
      c.file.IsValid c.value = (false, msg) →
      MergeFuncUpdateCgroup c cond w =
        ⟨c, some ("parse new value failed, err: " ++ msg), w, []⟩) ∧
    (∀ (c : CgroupResourceUpdater) (cond : MergeConditionFunc) (w : Sys),
      (c.file.IsValid c.value).1 = true →
      alookup w.fs (c.file.Path c.parentDir) = none →
      MergeFuncUpdateCgroup c cond w =
        ⟨c, some ("failed to read " ++ c.file.Path c.parentDir), w,
          [Effect.eread (c.file.Path c.parentDir)]⟩) ∧
    (∀ (c : CgroupResourceUpdater) (cond : MergeConditionFunc) (w : Sys)
        (oldStr m : String) (b : Bool) (e : String),
      (c.file.IsValid c.value).1 = true →
      alookup w.fs (c.file.Path c.parentDir) = some oldStr →
      cond oldStr c.value = (m, b, some e) →
      MergeFuncUpdateCgroup c cond w =
        ⟨c, some e, w, [Effect.eread (c.file.Path c.parentDir)]⟩) ∧
    (∀ ov nv : String, parseInt64 nv = none →
      (MergeConditionIfValueIsLarger ov nv).2.2 = some "new value is not int64") ∧
    (∀ (ov nv : String) (v : Int), parseInt64 nv = some v → parseInt64 ov = none →
      (MergeConditionIfValueIsLarger ov nv).2.2 = some "old value is not int64") ∧
    (∀ ov nv : String, cpuParse nv = none →
      (MergeConditionIfCPUSetIsLooser ov nv).2.2 = some "new value is not valid cpuset") ∧
    (∀ (ov nv : String) (v : List Nat), cpuParse nv = some v → cpuParse ov = none →
      (MergeConditionIfCPUSetIsLooser ov nv).2.2 = some "old value is not valid cpuset") :=
  ⟨fun c cond w msg h => mergeDriver_invalid c cond w msg h,
   fun c cond w hv hr => mergeDriver_readFail c cond w hv hr,
   fun c cond w oldStr m b e hv hr hc => mergeDriver_condErr c cond w oldStr m b e hv hr hc,
   fun ov nv h => by rw [valueLarger_newFail h],
   fun ov nv v hn ho => by rw [valueLarger_oldFail hn ho],
   fun ov nv h => by rw [cpuLooser_newFail h],
   fun ov nv v hn ho => by rw [cpuLooser_oldFail hn ho]⟩

theorem C8_merge_error_paths_witness :
    MergeFuncUpdateCgroup
        { file := rejectFile, parentDir := "/kubepods/pod1", value := "7",
          lastUpdateTimestamp := 0,
          mergeCondition := some MergeConditionIfValueIsLarger }
        MergeConditionIfValueIsLarger (sysMem "100") =
      ⟨{ file := rejectFile, parentDir := "/kubepods/pod1", value := "7",
         lastUpdateTimestamp := 0,
         mergeCondition := some MergeConditionIfValueIsLarger },
        some "parse new value failed, err: bad value", sysMem "100", []⟩ ∧
    MergeFuncUpdateCgroup (memMinUpdater "7") MergeConditionIfValueIsLarger
        { fs := [], failWrites := [] } =
      ⟨memMinUpdater "7", some "failed to read /kubepods/pod1/memory.min",
        { fs := [], failWrites := [] },
        [Effect.eread "/kubepods/pod1/memory.min"]⟩ ∧
    MergeFuncUpdateCgroup (memMinUpdater "x") MergeConditionIfValueIsLarger
        (sysMem "100") =
      ⟨memMinUpdater "x", some "new value is not int64", sysMem "100",
        [Effect.eread "/kubepods/pod1/memory.min"]⟩ := by
  refine ⟨?_, ?_, ?_⟩
  · exact C8_merge_error_paths.1 _ MergeConditionIfValueIsLarger (sysMem "100") "bad value" rfl
  · have h := C8_merge_error_paths.2.1 (memMinUpdater "7") MergeConditionIfValueIsLarger
      { fs := [], failWrites := [] } rfl rfl
    rw [h]
    rfl
  · have h := C8_merge_error_paths.2.2.1 (memMinUpdater "x") MergeConditionIfValueIsLarger
      (sysMem "100") "100" "x" false "new value is not int64" rfl (by decide) (by decide)
    rw [h]
    rfl

/-- Claim C6: after a successful merge update the stored value never decreases
under the policy ordering: with the scalar-larger policy the stored integer
parses to `max old new` (so is at least the old value); with the set-looser
policy the stored string parses to a superset of the old set. -/
theorem C6_merge_never_shrinks :
    (∀ (c : CgroupResourceUpdater) (w : Sys) (oldStr : String) (o n : Int),
      (c.file.IsValid c.value).1 = true →
      alookup w.fs (c.file.Path c.parentDir) = some oldStr →
      parseInt64 oldStr = some o →
      parseInt64 c.value = some n →
      w.failWrites.contains (c.file.Path c.parentDir) = false →
      (MergeFuncUpdateCgroup c MergeConditionIfValueIsLarger w).err = none ∧
      ∃ s : String,
        alookup (MergeFuncUpdateCgroup c MergeConditionIfValueIsLarger w).sys.fs
            (c.file.Path c.parentDir) = some s ∧
        parseInt64 s = some (max o n) ∧ o ≤ max o n) ∧
    (∀ (c : CgroupResourceUpdater) (w : Sys) (oldStr : String) (A B : List Nat),
      (c.file.IsValid c.value).1 = true →
      alookup w.fs (c.file.Path c.parentDir) = some oldStr →
      cpuParse oldStr = some A →
      cpuParse c.value = some B →
      w.failWrites.contains (c.file.Path c.parentDir) = false →
      (MergeFuncUpdateCgroup c MergeConditionIfCPUSetIsLooser w).err = none ∧
      ∃ (s : String) (S : List Nat),
        alookup (MergeFuncUpdateCgroup c MergeConditionIfCPUSetIsLooser w).sys.fs
            (c.file.Path c.parentDir) = some s ∧
        cpuParse s = some S ∧ ∀ x ∈ A, x ∈ S) := by
  constructor
  · intro c w oldStr o n hvalid hread ho hn hfail
    have hnotmem : c.file.Path c.parentDir ∉ w.failWrites := by simpa using hfail
    by_cases hlt : o < n
    · have hcond : MergeConditionIfValueIsLarger oldStr c.value = (c.value, true, none) := by
        rw [valueLarger_ok hn ho]
        simp [hlt]
      rw [mergeDriver_write c _ w oldStr c.value hvalid hread hcond]
      have hw : CgroupFileWrite c.parentDir c.file c.value w =
          (none, { w with fs := setFs w.fs (c.file.Path c.parentDir) c.value }) := by
        unfold CgroupFileWrite
        simp [hnotmem]
      rw [hw]
      refine ⟨rfl, c.value, ?_, ?_, le_max_left o n⟩
      · exact alookup_setFs_same w.fs _ c.value
      · rw [hn, max_eq_right (le_of_lt hlt)]
    · have hcond : MergeConditionIfValueIsLarger oldStr c.value = (c.value, false, none) := by
        rw [valueLarger_ok hn ho]
        simp [hlt]
      rw [mergeDriver_skip c _ w oldStr c.value hvalid hread hcond]
      refine ⟨rfl, oldStr, hread, ?_, le_max_left o n⟩
      rw [ho, max_eq_left (not_lt.mp hlt)]
  · intro c w oldStr A B hvalid hread hA hB hfail
    have hnotmem : c.file.Path c.parentDir ∉ w.failWrites := by simpa using hfail
    by_cases hs : cpuIsSubsetOf B A = true
    · rw [mergeDriver_skip c _ w oldStr c.value hvalid hread (cpuLooser_subset hB hA hs)]
      exact ⟨rfl, oldStr, A, hread, hA, fun x hx => hx⟩
    · have hs2 : cpuIsSubsetOf B A = false := by
        revert hs
        cases cpuIsSubsetOf B A <;> simp
      rw [mergeDriver_write c _ w oldStr (cpuString (cpuUnion B A)) hvalid hread
        (cpuLooser_union hB hA hs2)]
      have hw : CgroupFileWrite c.parentDir c.file (cpuString (cpuUnion B A)) w =
          (none, { w with fs := setFs w.fs (c.file.Path c.parentDir)
                            (cpuString (cpuUnion B A)) }) := by
        unfold CgroupFileWrite
        simp [hnotmem]
      rw [hw]
      exact ⟨rfl, cpuString (cpuUnion B A), cpuUnion B A,
        alookup_setFs_same w.fs _ _,
        cpuParse_cpuString (sortedLtB_cpuUnion B A),
        fun x hx => mem_cpuUnion_right hx⟩

theorem C6_merge_never_shrinks_witness :
    ((MergeFuncUpdateCgroup (memMinUpdater "200") MergeConditionIfValueIsLarger
        (sysMem "100")).err = none ∧
      ∃ s : String,
        alookup (MergeFuncUpdateCgroup (memMinUpdater "200")
            MergeConditionIfValueIsLarger (sysMem "100")).sys.fs
            "/kubepods/pod1/memory.min" = some s ∧
        parseInt64 s = some (max 100 200) ∧ (100 : Int) ≤ max 100 200) ∧
    ((MergeFuncUpdateCgroup (cpusetUpdater "4-5") MergeConditionIfCPUSetIsLooser
        (sysCpu "0-3")).err = none ∧
      ∃ (s : String) (S : List Nat),
        alookup (MergeFuncUpdateCgroup (cpusetUpdater "4-5")
            MergeConditionIfCPUSetIsLooser (sysCpu "0-3")).sys.fs
            "/kubepods/pod1/cpuset.cpus" = some s ∧
        cpuParse s = some S ∧ ∀ x ∈ [0, 1, 2, 3], x ∈ S) :=
  ⟨C6_merge_never_shrinks.1 (memMinUpdater "200") (sysMem "100") "100" 100 200
      rfl (by decide) (by decide) (by decide) rfl,
   C6_merge_never_shrinks.2 (cpusetUpdater "4-5") (sysCpu "0-3") "0-3" [0, 1, 2, 3] [4, 5]
      rfl (by decide) (by decide) (by decide) rfl⟩

/-- A non-mergeable cgroup updater (nil `mergeUpdateFunc`). -/
def plainCgroupUpdater : CgroupResourceUpdater :=
  { file := memMinFile, parentDir := "/kubepods/pod1", value := "100",
    lastUpdateTimestamp := 0, mergeCondition := none }

/-- A default (non-cgroup) updater. -/
def plainDefaultUpdater : DefaultResourceUpdater :=
  { value := "1", dir := "/proc/sys/vm", file := "min_free_kbytes",
    lastUpdateTimestamp := 0 }

/-- Claim C3 counterexample: with the merge strategy absent, `MergeUpdate()`
returns a nil `ResourceUpdater` (the source returns `nil, u.updateFunc(u)`),
not an updater instance representing the post-merge state. -/
theorem C3_counterexample_nil_return :
    (CgroupResourceUpdater.MergeUpdate plainCgroupUpdater (sysMem "100")).ret = none ∧
    ¬ (∃ r, (CgroupResourceUpdater.MergeUpdate plainCgroupUpdater (sysMem "100")).ret
          = some r) ∧
    (DefaultResourceUpdater.MergeUpdate plainDefaultUpdater (sysMem "100")).ret = none := by
  refine ⟨rfl, ?_, rfl⟩
  rintro ⟨r, hr⟩
  have hnone : (CgroupResourceUpdater.MergeUpdate plainCgroupUpdater (sysMem "100")).ret
      = none := rfl
  rw [hnone] at hr
  exact Option.noConfusion hr

/-- Claim C3 (amended): for every updater whose merge strategy is absent (a
cgroup updater with nil `mergeUpdateFunc`, and every default updater),
`MergeUpdate()` invokes the plain update strategy and returns nil — no
updater instance — together with the plain update's error, post state and
effects. -/
theorem C3_merge_update_plain_fallback :
    (∀ (u : CgroupResourceUpdater) (w : Sys), u.mergeCondition = none →
      CgroupResourceUpdater.MergeUpdate u w =
        ⟨none, (CommonCgroupUpdateFunc u w).err, (CommonCgroupUpdateFunc u w).sys,
          (CommonCgroupUpdateFunc u w).trace⟩) ∧
    (∀ (u : DefaultResourceUpdater) (w : Sys),
      DefaultResourceUpdater.MergeUpdate u w =
        ⟨none, (CommonDefaultUpdateFunc u w).err, (CommonDefaultUpdateFunc u w).sys,
          (CommonDefaultUpdateFunc u w).trace⟩) := by
  constructor
  · intro u w h
    simp [CgroupResourceUpdater.MergeUpdate, h]
  · intro u w
    rfl

theorem C3_merge_update_plain_fallback_witness :
    CgroupResourceUpdater.MergeUpdate plainCgroupUpdater (sysMem "100") =
      ⟨none, (CommonCgroupUpdateFunc plainCgroupUpdater (sysMem "100")).err,
        (CommonCgroupUpdateFunc plainCgroupUpdater (sysMem "100")).sys,
        (CommonCgroupUpdateFunc plainCgroupUpdater (sysMem "100")).trace⟩ ∧
    DefaultResourceUpdater.MergeUpdate plainDefaultUpdater (sysMem "100") =
      ⟨none, (CommonDefaultUpdateFunc plainDefaultUpdater (sysMem "100")).err,
        (CommonDefaultUpdateFunc plainDefaultUpdater (sysMem "100")).sys,
        (CommonDefaultUpdateFunc plainDefaultUpdater (sysMem "100")).trace⟩ :=
  ⟨C3_merge_update_plain_fallback.1 plainCgroupUpdater (sysMem "100") rfl,
   C3_merge_update_plain_fallback.2 plainDefaultUpdater (sysMem "100")⟩

theorem firstCtor_eq_none_iff (calls : List (NewResourceUpdaterFunc × List String))
    (t : String) :
    firstCtor calls t = none ↔ ∀ call ∈ calls, t ∉ call.2 := by
  induction calls with
  | nil => simp [firstCtor]
  | cons call calls ih =>
    obtain ⟨g, ts⟩ := call
    by_cases ht : t ∈ ts <;> simp [firstCtor, ht, ih]

/-- Claim C7: `New` fails with the kind-not-registered error exactly when no
`Register` call included the kind; otherwise the registry holds — and `New`
delegates to — the constructor of the first `Register` call that included the
kind, so later registrations of a present kind are never used. -/
theorem C7_first_registration_wins
    (calls : List (NewResourceUpdaterFunc × List String)) (t pd v : String) :
    alookup (applyRegisterCalls calls []) t = firstCtor calls t ∧
    (firstCtor calls t = none ↔ ∀ call ∈ calls, t ∉ call.2) ∧
    ((∀ call ∈ calls, t ∉ call.2) →
      factoryNew (applyRegisterCalls calls []) t pd v =
        Except.error ("resource type " ++ t ++ " not registered")) ∧
    (∀ g, firstCtor calls t = some g →
      factoryNew (applyRegisterCalls calls []) t pd v = g t pd v) := by
  have h : alookup (applyRegisterCalls calls []) t = firstCtor calls t :=
    (alookup_applyRegisterCalls calls [] t).trans rfl
  refine ⟨h, firstCtor_eq_none_iff calls t, ?_, ?_⟩
  · intro hnone
    have hfc : firstCtor calls t = none := (firstCtor_eq_none_iff calls t).mpr hnone
    unfold factoryNew
    rw [h, hfc]
  · intro g hg
    unfold factoryNew
    rw [h, hg]

/-- A constructor that always fails, distinguishable by its message. -/
def ctorA : NewResourceUpdaterFunc := fun _ _ _ => Except.error "constructor A"

/-- A constructor building a default updater. -/
def ctorB : NewResourceUpdaterFunc :=
  fun t pd v => Except.ok (ResourceUpdaterI.default ⟨v, pd, t, 0⟩)

/-- Two registration calls overlapping on `memory.min`. -/
def regCalls : List (NewResourceUpdaterFunc × List String) :=
  [(ctorA, ["memory.min"]), (ctorB, ["memory.min", "cpuset.cpus"])]

theorem C7_first_registration_wins_witness :
    factoryNew (applyRegisterCalls regCalls []) "memory.min" "/p" "1"
      = Except.error "constructor A" ∧
    factoryNew (applyRegisterCalls regCalls []) "cpuset.cpus" "/p" "0-3"
      = ctorB "cpuset.cpus" "/p" "0-3" ∧
    factoryNew (applyRegisterCalls regCalls []) "blkio.cost.model" "/p" "1"
      = Except.error "resource type blkio.cost.model not registered" := by
  refine ⟨?_, ?_, ?_⟩
  · exact ((C7_first_registration_wins regCalls "memory.min" "/p" "1").2.2.2
      ctorA rfl).trans rfl
  · exact (C7_first_registration_wins regCalls "cpuset.cpus" "/p" "0-3").2.2.2 ctorB rfl
  · exact (C7_first_registration_wins regCalls "blkio.cost.model" "/p" "1").2.2.1
      (by decide)

/-- Claim C9: `Clone` produces an independent copy sharing the strategy
functions: in the heap model (Go pointers as indices) the clone sits at a
fresh address with the same observable fields and merge strategy, and
mutating the clone's value or timestamp in place never changes the source's
`Value()` or `GetLastUpdateTimestamp()` observation, and vice versa. -/
theorem C9_clone_is_independent (h : UpdaterHeap) (i : Nat) (u : ResourceUpdaterI)
    (v : String) (t : Nat) (hu : getIdx h i = some u) :
    getIdx (heapClone h i).1 (heapClone h i).2 = some u.Clone ∧
    u.Clone.mergeStrategy = u.mergeStrategy ∧
    u.Clone.Value = u.Value ∧
    u.Clone.GetLastUpdateTimestamp = u.GetLastUpdateTimestamp ∧
    heapValue (heapSetValue (heapClone h i).1 (heapClone h i).2 v) i = heapValue h i ∧
    heapTimestamp (heapSetTimestamp (heapClone h i).1 (heapClone h i).2 t) i
      = heapTimestamp h i ∧
    heapValue (heapSetValue (heapClone h i).1 i v) (heapClone h i).2 = heapValue h i ∧
    heapTimestamp (heapSetTimestamp (heapClone h i).1 i t) (heapClone h i).2
      = heapTimestamp h i := by
  have hlen : i < h.length := getIdx_lt_length hu
  have hclone : heapClone h i = (h ++ [u.Clone], h.length) := by
    unfold heapClone
    rw [hu]
  rw [hclone]
  have hget1 : getIdx (h ++ [u.Clone]) h.length = some u.Clone :=
    getIdx_append_length h u.Clone
  have hgetI : getIdx (h ++ [u.Clone]) i = getIdx h i := getIdx_append_left _ hlen
  have hne : i ≠ h.length := Nat.ne_of_lt hlen
  refine ⟨hget1, ResourceUpdaterI.mergeStrategy_Clone u, ResourceUpdaterI.Value_Clone u,
    ResourceUpdaterI.timestamp_Clone u, ?_, ?_, ?_, ?_⟩
  · unfold heapSetValue
    rw [hget1]
    unfold heapValue
    rw [getIdx_setIdx_ne _ _ hne, hgetI]
  · unfold heapSetTimestamp
    rw [hget1]
    unfold heapTimestamp
    rw [getIdx_setIdx_ne _ _ hne, hgetI]
  · unfold heapSetValue
    rw [hgetI, hu]
    unfold heapValue
    rw [getIdx_setIdx_ne _ _ (Ne.symm hne), hget1, hu]
    simp [ResourceUpdaterI.Value_Clone]
  · unfold heapSetTimestamp
    rw [hgetI, hu]
    unfold heapTimestamp
    rw [getIdx_setIdx_ne _ _ (Ne.symm hne), hget1, hu]
    simp [ResourceUpdaterI.timestamp_Clone]

theorem C9_clone_is_independent_witness :
    getIdx (heapClone [ResourceUpdaterI.cgroup (memMinUpdater "50")] 0).1
        (heapClone [ResourceUpdaterI.cgroup (memMinUpdater "50")] 0).2
      = some (ResourceUpdaterI.cgroup (memMinUpdater "50")).Clone ∧
    heapValue (heapSetValue (heapClone [ResourceUpdaterI.cgroup (memMinUpdater "50")] 0).1
        (heapClone [ResourceUpdaterI.cgroup (memMinUpdater "50")] 0).2 "77") 0
      = heapValue [ResourceUpdaterI.cgroup (memMinUpdater "50")] 0 ∧
    heapTimestamp (heapSetTimestamp
        (heapClone [ResourceUpdaterI.cgroup (memMinUpdater "50")] 0).1 0 5)
        (heapClone [ResourceUpdaterI.cgroup (memMinUpdater "50")] 0).2
      = heapTimestamp [ResourceUpdaterI.cgroup (memMinUpdater "50")] 0 :=
  ⟨(C9_clone_is_independent [ResourceUpdaterI.cgroup (memMinUpdater "50")] 0
      (ResourceUpdaterI.cgroup (memMinUpdater "50")) "77" 5 rfl).1,
   (C9_clone_is_independent [ResourceUpdaterI.cgroup (memMinUpdater "50")] 0
      (ResourceUpdaterI.cgroup (memMinUpdater "50")) "77" 5 rfl).2.2.2.2.1,
   (C9_clone_is_independent [ResourceUpdaterI.cgroup (memMinUpdater "50")] 0
      (ResourceUpdaterI.cgroup (memMinUpdater "50")) "77" 5 rfl).2.2.2.2.2.2.2⟩

/-- Claim C10: `Clone` on a sandboxed cgroup updater is the promoted method
of the embedded cgroup updater and yields a plain cgroup updater value: the
result carries no sandbox identity, so two sandboxed updaters with the same
base but different sandbox identities have identical clones. -/
theorem C10_guest_clone_drops_sandbox (g g2 : GuestCgroupResourceUpdater)
    (hbase : g.base = g2.base) :
    GuestCgroupResourceUpdater.Clone g = ResourceUpdaterI.cgroup g.base.Clone ∧
    (GuestCgroupResourceUpdater.Clone g).mergeStrategy = g.base.mergeCondition ∧
    (GuestCgroupResourceUpdater.Clone g).Value = g.base.value ∧
    GuestCgroupResourceUpdater.Clone g = GuestCgroupResourceUpdater.Clone g2 := by
  refine ⟨rfl, rfl, rfl, ?_⟩
  unfold GuestCgroupResourceUpdater.Clone
  rw [hbase]

/-- Two sandboxed updaters sharing a base but in different sandboxes. -/
def guestOne : GuestCgroupResourceUpdater := ⟨memMinUpdater "50", "sandbox-1"⟩

/-- Same base as `guestOne`, different sandbox identity. -/
def guestTwo : GuestCgroupResourceUpdater := ⟨memMinUpdater "50", "sandbox-2"⟩

theorem C10_guest_clone_drops_sandbox_witness :
    GuestCgroupResourceUpdater.Clone guestOne
      = ResourceUpdaterI.cgroup (memMinUpdater "50").Clone ∧
    GuestCgroupResourceUpdater.Clone guestOne
      = GuestCgroupResourceUpdater.Clone guestTwo :=
  ⟨(C10_guest_clone_drops_sandbox guestOne guestTwo rfl).1,
   (C10_guest_clone_drops_sandbox guestOne guestTwo rfl).2.2.2⟩
